import Mathlib

/-!
Verification of `packages/desktop/src-tauri/src/cli.rs`: shell escaping,
bridge-mode (WSL) command construction, CLI install / version-sync
workflows, and the sidecar process supervision loop, embedded shallowly
over lists, strings and explicit world records.
-/

/-- The five-character replacement written in the source for an embedded
single quote: `input.replace("'", "'\"'\"'")`. -/
def quoteSeq : List Char := ['\'', '"', '\'', '"', '\'']

/-- Model of Rust `str::replace` on character lists: scan left to right,
replacing each non-overlapping occurrence of `pat` by `rep`. -/
def replaceList (pat rep : List Char) : List Char → List Char
  | [] => []
  | c :: rest =>
    if h : pat ≠ [] ∧ (c :: rest).take pat.length = pat then
      rep ++ replaceList pat rep ((c :: rest).drop pat.length)
    else
      c :: replaceList pat rep rest
termination_by l => l.length
decreasing_by
  · simp only [List.length_drop, List.length_cons]
    have hp : 0 < pat.length := List.length_pos.mpr h.1
    omega
  · simp only [List.length_cons]
    omega

/-- `str::replace` specialised to a single-character pattern, structurally
recursive (for a one-character pattern the two agree; see
`replaceList_single`). -/
def replaceChar (q : Char) (rep : List Char) : List Char → List Char
  | [] => []
  | c :: rest =>
    if c = q then rep ++ replaceChar q rep rest else c :: replaceChar q rep rest

theorem replaceList_single (q : Char) (rep : List Char) :
    ∀ l : List Char, replaceList [q] rep l = replaceChar q rep l := by
  intro l
  induction l with
  | nil => simp [replaceList, replaceChar]
  | cons c rest ih =>
    by_cases hc : c = q
    · subst hc
      rw [replaceList]
      simp [replaceChar, ih]
    · rw [replaceList]
      have hcond : ¬(([q] : List Char) ≠ [] ∧ (c :: rest).take ([q] : List Char).length = [q]) := by
        simp [hc]
      simp only [dif_neg hcond]
      simp [replaceChar, hc, ih]

/-- `shell_escape` from cli.rs on character lists: the empty input becomes
two single quotes, any other input is wrapped in single quotes after the
`str::replace` of every embedded single quote by `quoteSeq`. -/
def shell_escapeCore (l : List Char) : List Char :=
  if l = [] then ['\'', '\'']
  else '\'' :: (replaceList ['\''] quoteSeq l ++ ['\''])

/-- `shell_escape` from cli.rs on strings. -/
def shell_escape (s : String) : String :=
  String.mk (shell_escapeCore s.data)

/-- Per-character reading of the quote replacement: a single quote expands
to `quoteSeq`, every other character is kept. -/
def escQuote (c : Char) : List Char :=
  if c = '\'' then quoteSeq else [c]

theorem replaceChar_eq_join (q : Char) (rep : List Char) :
    ∀ l : List Char,
      replaceChar q rep l = (l.map (fun c => if c = q then rep else [c])).flatten := by
  intro l
  induction l with
  | nil => simp [replaceChar]
  | cons c rest ih =>
    by_cases hc : c = q <;> simp [replaceChar, hc, ih]

theorem shell_escapeCore_eq (l : List Char) :
    shell_escapeCore l =
      if l = [] then ['\'', '\'']
      else '\'' :: ((l.map escQuote).flatten ++ ['\'']) := by
  unfold shell_escapeCore
  rw [replaceList_single, replaceChar_eq_join]
  rfl

/-- Quoting state of a POSIX shell scanning a command word sequence. -/
inductive ShMode where
  | norm
  | single
  | double
deriving DecidableEq

/-- POSIX word splitting and quote removal over a list of characters:
`cur` is the word being accumulated (`none` when no word has started).
Blanks outside quotes separate words; single quotes are literal up to the
closing quote; double quotes are literal except for backslash escapes of
`"` `\` `$` and backquote; an unquoted backslash escapes the next
character (backslash-newline is a removed line continuation).  Characters
that would start an operator token or trigger an expansion (`|` `&` `;`
`<` `>` `(` `)` and unquoted or double-quoted `$` / backquote), as well as
unterminated quotes, fall outside the modelled word-only fragment and
yield `none`. -/
def wordsAux : ShMode → Option (List Char) → List Char → Option (List (List Char))
  | .norm, cur, [] => some cur.toList
  | .norm, _, '\\' :: [] => none
  | .norm, cur, '\\' :: d :: rest2 =>
    if d == '\n' then wordsAux .norm cur rest2
    else wordsAux .norm (some (cur.getD [] ++ [d])) rest2
  | .norm, cur, c :: rest =>
    if c == ' ' || c == '\t' || c == '\n' then
      match cur with
      | none => wordsAux .norm none rest
      | some w => (wordsAux .norm none rest).map (fun ws => w :: ws)
    else if c == '\'' then wordsAux .single (some (cur.getD [])) rest
    else if c == '"' then wordsAux .double (some (cur.getD [])) rest
    else if c == '|' || c == '&' || c == ';' || c == '<' || c == '>'
        || c == '(' || c == ')' || c == '$' || c == Char.ofNat 96 then none
    else wordsAux .norm (some (cur.getD [] ++ [c])) rest
  | .single, _, [] => none
  | .single, cur, c :: rest =>
    if c == '\'' then wordsAux .norm cur rest
    else wordsAux .single (some (cur.getD [] ++ [c])) rest
  | .double, _, [] => none
  | .double, _, '\\' :: [] => none
  | .double, cur, '\\' :: d :: rest2 =>
    if d == '\n' then wordsAux .double cur rest2
    else if d == '"' || d == '\\' || d == '$' || d == Char.ofNat 96 then
      wordsAux .double (some (cur.getD [] ++ [d])) rest2
    else wordsAux .double (some (cur.getD [] ++ ['\\', d])) rest2
  | .double, cur, c :: rest =>
    if c == '"' then wordsAux .norm cur rest
    else if c == '$' || c == Char.ofNat 96 then none
    else wordsAux .double (some (cur.getD [] ++ [c])) rest
termination_by structural _ _ l => l

/-- POSIX word splitting and quote removal of a whole string. -/
def posixShellWords (s : String) : Option (List String) :=
  (wordsAux .norm none s.data).map (fun ws => ws.map String.mk)

theorem wordsAux_escape (s : List Char) :
    ∀ w t : List Char,
      wordsAux .single (some w) ((s.map escQuote).flatten ++ '\'' :: t)
        = wordsAux .norm (some (w ++ s)) t := by
  induction s with
  | nil => intro w t; simp [wordsAux]
  | cons c s ih =>
    intro w t
    by_cases hc : c = '\''
    · subst hc
      show wordsAux .single (some w)
          ('\'' :: '"' :: '\'' :: '"' :: '\'' :: ((s.map escQuote).flatten ++ '\'' :: t)) = _
      have h5 : wordsAux .single (some w)
          ('\'' :: '"' :: '\'' :: '"' :: '\'' :: ((s.map escQuote).flatten ++ '\'' :: t))
          = wordsAux .single (some (w ++ ['\''])) ((s.map escQuote).flatten ++ '\'' :: t) := rfl
      rw [h5, ih]
      simp
    · have he : escQuote c = [c] := by simp [escQuote, hc]
      have hbeq : (c == '\'') = false := by simp [hc]
      simp only [List.map_cons, List.flatten_cons, he, List.singleton_append,
        List.append_assoc]
      show (if c == '\'' then wordsAux .norm (some w) ((s.map escQuote).flatten ++ '\'' :: t)
        else wordsAux .single (some (w ++ [c])) ((s.map escQuote).flatten ++ '\'' :: t)) = _
      rw [if_neg (by simp [hbeq]), ih]
      simp

theorem stringData_append (a b : String) : (a ++ b).data = a.data ++ b.data := by
  cases a
  cases b
  rfl

/-- C1: for every string `s`, POSIX word splitting and quote removal of
`shell_escape s` yields exactly the single word `s`, for any input
including the empty string, embedded single quotes, blanks, control
characters and shell metacharacters. -/
theorem shell_escape_posix_roundtrip (s : String) :
    posixShellWords (shell_escape s) = some [s] := by
  obtain ⟨l⟩ := s
  show (wordsAux .norm none (shell_escapeCore l)).map _ = _
  rw [shell_escapeCore_eq]
  by_cases hl : l = []
  · subst hl
    rfl
  · rw [if_neg hl]
    have h1 : wordsAux .norm none ('\'' :: ((l.map escQuote).flatten ++ ['\'']))
        = wordsAux .single (some []) ((l.map escQuote).flatten ++ '\'' :: []) := rfl
    rw [h1, wordsAux_escape l [] []]
    simp [wordsAux]

/-- C6 counterexample: on the one-character input consisting of a single
quote, the escaped form is not the input wrapped in single quotes around
any four-character replacement: the replacement the code uses has five
characters, so no four-character sequence fits. -/
theorem shell_escape_four_char_false :
    ¬ ∃ r : String, r.length = 4 ∧ shell_escape "'" = "'" ++ r ++ "'" := by
  rintro ⟨r, hr, he⟩
  have hval : shell_escape "'" = String.mk ['\'', '\'', '"', '\'', '"', '\'', '\''] := by
    unfold shell_escape
    rw [shell_escapeCore_eq]
    rfl
  rw [hval] at he
  have hd := congrArg String.data he
  rw [stringData_append, stringData_append] at hd
  have hlen := congrArg List.length hd
  simp only [List.length_append] at hlen
  have hrl : r.data.length = 4 := hr
  simp [hrl] at hlen

/-- C6 (amended): `shell_escape` maps the empty string to two single
quotes, and any non-empty input to the input wrapped in single quotes
with every embedded single quote replaced by the five-character sequence
close-quote, double-quote, single-quote, double-quote, open-quote. -/
theorem shell_escape_spec (s : String) :
    shell_escape (String.mk []) = String.mk ['\'', '\''] ∧
    quoteSeq = ['\'', '"', '\'', '"', '\''] ∧
    quoteSeq.length = 5 ∧
    (s.data ≠ [] →
      shell_escape s = String.mk ('\'' :: ((s.data.map escQuote).flatten ++ ['\'']))) := by
  refine ⟨rfl, rfl, rfl, fun h => ?_⟩
  unfold shell_escape
  rw [shell_escapeCore_eq, if_neg h]

/-- Exit information of a terminated sidecar process, as carried by the
`Terminated` command event: exit code and signal, each optional. -/
structure TerminatedPayload where
  code : Option Int
  signal : Option Int
deriving DecidableEq

/-- The command events the supervision loop in `serve` consumes: stdout
and stderr lines (byte vectors), a spawn/runtime error message, process
termination, and a catch-all for any further event kind (the stream type
is non-exhaustive; the loop ignores such events). -/
inductive CommandEvent where
  | stdout (line : List Nat)
  | stderr (line : List Nat)
  | error (msg : String)
  | terminated (payload : TerminatedPayload)
  | other
deriving DecidableEq

/-- The event-consumer task of `serve`, modelled over the finite list of
events the stream delivers before closing: `tx` is `Some` while the
one-shot sender is still held (`exit_tx.take()` in the source consumes
it); the result collects every payload actually sent through the
channel. -/
def consumeAux : Option Unit → List CommandEvent → List TerminatedPayload
  | _, [] => []
  | tx, e :: rest =>
    match e with
    | .terminated p =>
      match tx with
      | some _ => p :: consumeAux none rest
      | none => consumeAux none rest
    | _ => consumeAux tx rest

/-- The payloads `serve`'s consumer task sends through the termination
channel over the whole life of the event stream. -/
def sentPayloads (events : List CommandEvent) : List TerminatedPayload :=
  consumeAux (some ()) events

/-- The payload of the first `Terminated` event of the stream, if any. -/
def firstTerminated : List CommandEvent → Option TerminatedPayload
  | [] => none
  | .terminated p :: _ => some p
  | _ :: rest => firstTerminated rest

theorem consumeAux_none (events : List CommandEvent) : consumeAux none events = [] := by
  induction events with
  | nil => rfl
  | cons e rest ih => cases e <;> simp [consumeAux, ih]

theorem sentPayloads_eq_firstTerminated (events : List CommandEvent) :
    sentPayloads events = (firstTerminated events).toList := by
  unfold sentPayloads
  induction events with
  | nil => rfl
  | cons e rest ih =>
    cases e <;> simp [consumeAux, firstTerminated, ih, consumeAux_none]

/-- C2: the termination signal is fulfilled exactly once per stream: the
sent payloads are exactly the first `Terminated` event's payload (so its
exit code and signal), later `Terminated` events are ignored, `Error` and
output events never fulfill it, and a stream with no `Terminated` event
sends nothing at all. -/
theorem serve_termination_exactly_once (events : List CommandEvent) :
    sentPayloads events = (firstTerminated events).toList ∧
    (sentPayloads events).length ≤ 1 ∧
    ((∀ e ∈ events, ∀ p, e ≠ CommandEvent.terminated p) → sentPayloads events = []) := by
  refine ⟨sentPayloads_eq_firstTerminated events, ?_, ?_⟩
  · rw [sentPayloads_eq_firstTerminated]
    cases firstTerminated events <;> simp
  · intro hno
    rw [sentPayloads_eq_firstTerminated]
    have : firstTerminated events = none := by
      induction events with
      | nil => rfl
      | cons e rest ih =>
        cases e with
        | terminated p => exact absurd rfl (hno _ (by simp) p)
        | stdout l => exact ih (fun e he p => hno e (by simp [he]) p)
        | stderr l => exact ih (fun e he p => hno e (by simp [he]) p)
        | error m => exact ih (fun e he p => hno e (by simp [he]) p)
        | other => exact ih (fun e he p => hno e (by simp [he]) p)
    rw [this]
    rfl

/-- What awaiting the one-shot termination receiver yields once the
consumer task has finished: the sent payload when one was sent, or the
closed/cancelled error (`tokio::sync::oneshot` resolves a receiver with
`RecvError` when the sender is dropped unused, as happens when the
consumer task ends with `exit_tx` still held). -/
inductive RecvOutcome where
  | ok (p : TerminatedPayload)
  | closed
deriving DecidableEq

/-- Receiver outcome for a finite event stream. -/
def recvOutcome (events : List CommandEvent) : RecvOutcome :=
  match sentPayloads events with
  | [] => .closed
  | p :: _ => .ok p

/-- C8: if the event stream closes without a `Terminated` event, the
termination receiver resolves to the closed/cancelled outcome rather than
a payload, and that outcome is distinct from every successful exit —
in particular from exit code 0 with no signal. -/
theorem recvOutcome_closed_when_no_termination (events : List CommandEvent) :
    (firstTerminated events = none → recvOutcome events = RecvOutcome.closed) ∧
    (∀ p : TerminatedPayload, RecvOutcome.closed ≠ RecvOutcome.ok p) ∧
    RecvOutcome.closed ≠ RecvOutcome.ok ⟨some 0, none⟩ := by
  refine ⟨?_, ?_, ?_⟩
  · intro hnone
    unfold recvOutcome
    rw [sentPayloads_eq_firstTerminated, hnone]
    rfl
  · intro p h
    exact RecvOutcome.noConfusion h
  · intro h
    exact RecvOutcome.noConfusion h

/-- Install directory fragment under the home directory (cli.rs
`CLI_INSTALL_DIR`). -/
def CLI_INSTALL_DIR : String := ".opencode/bin"

/-- Installed binary name (cli.rs `CLI_BINARY_NAME`). -/
def CLI_BINARY_NAME : String := "opencode"

/-- Model of `PathBuf::join` with a relative right-hand component: the
left path, a separator, the component. -/
def pathJoin (a b : String) : String := a ++ "/" ++ b

/-- `get_cli_install_path` from cli.rs over the ambient `HOME` variable:
`None` when `HOME` is unset, otherwise
`<home>/.opencode/bin/opencode`. -/
def get_cli_install_path (home : Option String) : Option String :=
  home.map (fun h => pathJoin (pathJoin h CLI_INSTALL_DIR) CLI_BINARY_NAME)

/-- Filesystem and process effects `install_cli` can perform on the
temporary installer script. -/
inductive FsAction where
  | writeScript
  | setPerms
  | runScript
  | removeScript
deriving DecidableEq

/-- Ambient world `install_cli` runs against: the target family, whether
the sidecar binary exists, whether writing the temporary script and
setting its permissions succeed, the outcome of running the script
(`none` when the process cannot be launched, otherwise its exit-status
success flag and captured stderr text), and the `HOME` variable. -/
structure InstallWorld where
  isUnix : Bool
  sidecarExists : Bool
  writeOk : Bool
  permOk : Bool
  runResult : Option (Bool × String)
  home : Option String
deriving DecidableEq

/-- `install_cli` from cli.rs as a function of its ambient world,
returning its result together with the trace of effects on the temporary
script, in order.  Mirrors the source line by line: early error returns
on non-Unix targets, missing sidecar, failed write, failed permission
change and failed launch; `remove_file` runs only after `output()`
returns; then the exit status is checked and the deterministic install
path is produced. -/
def install_cli (w : InstallWorld) : Except String String × List FsAction :=
  if w.isUnix = false then
    (.error "CLI installation is only supported on macOS & Linux", [])
  else if w.sidecarExists = false then
    (.error "Sidecar binary not found", [])
  else if w.writeOk = false then
    (.error "Failed to write install script", [.writeScript])
  else if w.permOk = false then
    (.error "Failed to set script permissions", [.writeScript, .setPerms])
  else
    match w.runResult with
    | none =>
      (.error "Failed to run install script", [.writeScript, .setPerms, .runScript])
    | some (success, stderrText) =>
      if success = false then
        (.error ("Install script failed: " ++ stderrText),
          [.writeScript, .setPerms, .runScript, .removeScript])
      else
        match get_cli_install_path w.home with
        | none =>
          (.error "Could not determine install path",
            [.writeScript, .setPerms, .runScript, .removeScript])
        | some p =>
          (.ok p, [.writeScript, .setPerms, .runScript, .removeScript])

/-- C3 counterexample: when setting the script's permissions fails after
the script was written, `install_cli` returns without deleting the
temporary script — the trace contains the write but no removal.  (The
same happens when launching the script fails.) -/
theorem install_cli_cleanup_false :
    FsAction.writeScript ∈ (install_cli ⟨true, true, true, false, none, none⟩).2 ∧
    FsAction.removeScript ∉ (install_cli ⟨true, true, true, false, none, none⟩).2 ∧
    FsAction.writeScript ∈ (install_cli ⟨true, true, true, true, none, none⟩).2 ∧
    FsAction.removeScript ∉ (install_cli ⟨true, true, true, true, none, none⟩).2 := by
  decide

/-- C3 (amended): the temporary script is deleted on every exit path on
which running it yields an exit status — whether that status is success
or failure and whether the install path can be determined afterwards; it
is not deleted when setting permissions or launching the script fails. -/
theorem install_cli_cleanup_after_run (w : InstallWorld) (r : Bool × String)
    (hu : w.isUnix = true) (hs : w.sidecarExists = true) (hw : w.writeOk = true)
    (hp : w.permOk = true) (hr : w.runResult = some r) :
    FsAction.removeScript ∈ (install_cli w).2 := by
  unfold install_cli
  rw [hu, hs, hw, hp, hr]
  obtain ⟨success, stderrText⟩ := r
  cases success
  · simp
  · cases h : get_cli_install_path w.home <;> simp

/-- C3 witness: the amended cleanup theorem applied at a concrete world
in which the script runs and exits non-zero. -/
theorem install_cli_cleanup_after_run_witness :
    FsAction.removeScript ∈
      (install_cli ⟨true, true, true, true, some (false, "boom"), none⟩).2 :=
  install_cli_cleanup_after_run ⟨true, true, true, true, some (false, "boom"), none⟩
    (false, "boom") rfl rfl rfl rfl rfl

/-- C9: `install_cli` on any non-Unix platform returns the
platform-unsupported error; with a missing sidecar it returns the
sidecar error; when the script exits non-zero it returns an error
carrying the captured stderr text; and on a successful run with `HOME`
set it returns `<home>/.opencode/bin/opencode`. -/
theorem install_cli_outcomes (w : InstallWorld) :
    (w.isUnix = false →
      install_cli w = (.error "CLI installation is only supported on macOS & Linux", [])) ∧
    (w.isUnix = true → w.sidecarExists = false →
      install_cli w = (.error "Sidecar binary not found", [])) ∧
    (∀ st : String, w.isUnix = true → w.sidecarExists = true → w.writeOk = true →
      w.permOk = true → w.runResult = some (false, st) →
      (install_cli w).1 = .error ("Install script failed: " ++ st)) ∧
    (∀ st h : String, w.isUnix = true → w.sidecarExists = true → w.writeOk = true →
      w.permOk = true → w.runResult = some (true, st) → w.home = some h →
      (install_cli w).1 = .ok (pathJoin (pathJoin h CLI_INSTALL_DIR) CLI_BINARY_NAME)) := by
  refine ⟨?_, ?_, ?_, ?_⟩
  · intro hu
    unfold install_cli
    rw [hu]
    rfl
  · intro hu hs
    unfold install_cli
    rw [hu, hs]
    rfl
  · intro st hu hs hw hp hr
    unfold install_cli
    rw [hu, hs, hw, hp, hr]
    rfl
  · intro st h hu hs hw hp hr hh
    unfold install_cli
    rw [hu, hs, hw, hp, hr]
    simp [get_cli_install_path, hh]

/-- A semantic version MAJOR.MINOR.PATCH, as compared by `sync_cli`
(`semver::Version` for plain versions orders field by field). -/
structure SemVer where
  major : Nat
  minor : Nat
  patch : Nat
deriving DecidableEq

/-- Field-by-field (lexicographic) order: `SemVer.le a b` is `a ≤ b`. -/
def SemVer.le (a b : SemVer) : Prop :=
  a.major < b.major ∨
    (a.major = b.major ∧
      (a.minor < b.minor ∨ (a.minor = b.minor ∧ a.patch ≤ b.patch)))

instance (a b : SemVer) : Decidable (SemVer.le a b) := by
  unfold SemVer.le
  exact inferInstance

/-- `HOME`-based existence probe `is_cli_installed` from cli.rs:
`get_cli_install_path().map(|p| p.exists()).unwrap_or(false)`, with
`pathExists` the ambient answer of `Path::exists` at that path. -/
def is_cli_installed (home : Option String) (pathExists : Bool) : Bool :=
  match get_cli_install_path home with
  | none => false
  | some _ => pathExists

/-- External effects of `sync_cli`: running the installed binary with
`--version`, and invoking `install_cli`. -/
inductive SyncAction where
  | queryVersion
  | invokeInstall
deriving DecidableEq

/-- Ambient world `sync_cli` runs against: the debug-build flag, the
`HOME` variable, whether the install path exists, the `--version` run
(`none` when the spawn fails, otherwise the exit-status success flag),
the parse of its trimmed stdout as modelled for `semver::Version::parse`
(`none` on parse failure), the running application's own version, and
the world `install_cli` would run against. -/
structure SyncWorld where
  debug : Bool
  home : Option String
  pathExists : Bool
  runOk : Option Bool
  parsed : Option SemVer
  appVersion : SemVer
  install : InstallWorld

/-- `sync_cli` from cli.rs as a function of its ambient world, returning
its result and the trace of external effects, in order: skip in debug
builds; skip when no installation is probed; query the installed
version; fail on spawn failure, non-success exit or parse failure; skip
when the installed version is at least the application version; and
otherwise invoke `install_cli`, propagating its error. -/
def sync_cli (w : SyncWorld) : Except String Unit × List SyncAction :=
  if w.debug = true then (.ok (), [])
  else if is_cli_installed w.home w.pathExists = false then (.ok (), [])
  else
    match get_cli_install_path w.home with
    | none => (.error "Could not determine CLI install path", [])
    | some _ =>
      match w.runOk with
      | none => (.error "Failed to get CLI version", [.queryVersion])
      | some false => (.error "Failed to get CLI version", [.queryVersion])
      | some true =>
        match w.parsed with
        | none => (.error "Failed to parse CLI version", [.queryVersion])
        | some cliVersion =>
          if SemVer.le w.appVersion cliVersion then (.ok (), [.queryVersion])
          else
            match (install_cli w.install).1 with
            | .error e => (.error e, [.queryVersion, .invokeInstall])
            | .ok _ => (.ok (), [.queryVersion, .invokeInstall])

/-- C4: `sync_cli` returns `Ok` with no effects in a debug build and when
no installation is probed; performs no install when the installed
version is at least the application version; and invokes the installer
exactly once when the installed version is strictly below the
application version. -/
theorem sync_cli_behaviour (w : SyncWorld) :
    (w.debug = true → sync_cli w = (.ok (), [])) ∧
    (is_cli_installed w.home w.pathExists = false → sync_cli w = (.ok (), [])) ∧
    (∀ v : SemVer, w.debug = false → is_cli_installed w.home w.pathExists = true →
      w.runOk = some true → w.parsed = some v → SemVer.le w.appVersion v →
      sync_cli w = (.ok (), [.queryVersion])) ∧
    (∀ v : SemVer, w.debug = false → is_cli_installed w.home w.pathExists = true →
      w.runOk = some true → w.parsed = some v → ¬ SemVer.le w.appVersion v →
      (sync_cli w).2.count SyncAction.invokeInstall = 1) := by
  refine ⟨?_, ?_, ?_, ?_⟩
  · intro hd
    unfold sync_cli
    rw [hd]
    rfl
  · intro hi
    unfold sync_cli
    rw [hi]
    cases hd : w.debug <;> rfl
  · intro v hd hi hr hp hle
    have hhome : ∃ p, get_cli_install_path w.home = some p := by
      unfold is_cli_installed at hi
      cases hg : get_cli_install_path w.home
      · rw [hg] at hi
        simp at hi
      · exact ⟨_, rfl⟩
    obtain ⟨p, hg⟩ := hhome
    unfold sync_cli
    rw [hd, hi, hg, hr, hp]
    simp [hle]
  · intro v hd hi hr hp hlt
    have hhome : ∃ p, get_cli_install_path w.home = some p := by
      unfold is_cli_installed at hi
      cases hg : get_cli_install_path w.home
      · rw [hg] at hi
        simp at hi
      · exact ⟨_, rfl⟩
    obtain ⟨p, hg⟩ := hhome
    unfold sync_cli
    rw [hd, hi, hg, hr, hp]
    simp only [if_neg (by simp : ¬(false = true)), if_neg (by simp : ¬(true = false))]
    rw [if_neg hlt]
    cases hres : (install_cli w.install).1 <;> simp [hres, List.count_cons]

/-- C10: when `HOME` is unset the probe reports no installation, and
`sync_cli` returns `Ok` without querying any version or invoking any
install, whatever the rest of the world looks like. -/
theorem sync_cli_no_home (w : SyncWorld) (hh : w.home = none) :
    is_cli_installed w.home w.pathExists = false ∧ sync_cli w = (.ok (), []) := by
  have hi : is_cli_installed w.home w.pathExists = false := by
    unfold is_cli_installed get_cli_install_path
    rw [hh]
    rfl
  refine ⟨hi, ?_⟩
  unfold sync_cli
  rw [hi]
  cases hd : w.debug <;> rfl

/-- C10 witness: a concrete release-build world with `HOME` unset. -/
theorem sync_cli_no_home_witness :
    is_cli_installed (SyncWorld.home ⟨false, none, true, some true,
        some ⟨1, 2, 3⟩, ⟨2, 0, 0⟩, ⟨true, true, true, true, none, none⟩⟩)
      (SyncWorld.pathExists ⟨false, none, true, some true,
        some ⟨1, 2, 3⟩, ⟨2, 0, 0⟩, ⟨true, true, true, true, none, none⟩⟩) = false ∧
    sync_cli ⟨false, none, true, some true, some ⟨1, 2, 3⟩, ⟨2, 0, 0⟩,
        ⟨true, true, true, true, none, none⟩⟩ = (.ok (), []) :=
  sync_cli_no_home ⟨false, none, true, some true, some ⟨1, 2, 3⟩, ⟨2, 0, 0⟩,
    ⟨true, true, true, true, none, none⟩⟩ rfl

/-- The four default environment entries `create_command` always builds
(`envs` in cli.rs), with the resolved state directory. -/
def defaultEnvs (stateDir : String) : List (String × String) :=
  [("OPENCODE_EXPERIMENTAL_ICON_DISCOVERY", "true"),
   ("OPENCODE_EXPERIMENTAL_FILEWATCHER", "true"),
   ("OPENCODE_CLIENT", "desktop"),
   ("XDG_STATE_HOME", stateDir)]

/-- The full environment list of `create_command`: the defaults extended
with the caller's extra entries. -/
def mergedEnvs (stateDir : String) (extra : List (String × String)) :
    List (String × String) :=
  defaultEnvs stateDir ++ extra

/-- The four `.filter` calls of the WSL branch, removing every entry
whose key is one of the four reserved default keys. -/
def chainFilter (envs : List (String × String)) : List (String × String) :=
  (((envs.filter (fun e => e.1 != "OPENCODE_EXPERIMENTAL_ICON_DISCOVERY")).filter
    (fun e => e.1 != "OPENCODE_EXPERIMENTAL_FILEWATCHER")).filter
    (fun e => e.1 != "OPENCODE_CLIENT")).filter
    (fun e => e.1 != "XDG_STATE_HOME")

/-- The textual export list `env_prefix` of the WSL branch: four
hard-coded `KEY=value` entries followed by one `KEY=escaped-value` entry
per surviving environment entry. -/
def envAssigns (envs : List (String × String)) : List String :=
  ["OPENCODE_EXPERIMENTAL_ICON_DISCOVERY=true",
   "OPENCODE_EXPERIMENTAL_FILEWATCHER=true",
   "OPENCODE_CLIENT=desktop",
   "XDG_STATE_HOME=\"$HOME/.local/state\""] ++
  (chainFilter envs).map (fun e => e.1 ++ "=" ++ shell_escape e.2)

/-- The export list of the WSL branch as key/value pairs, the key of each
textual `KEY=value` entry made explicit. -/
def envAssignPairs (envs : List (String × String)) : List (String × String) :=
  [("OPENCODE_EXPERIMENTAL_ICON_DISCOVERY", "true"),
   ("OPENCODE_EXPERIMENTAL_FILEWATCHER", "true"),
   ("OPENCODE_CLIENT", "desktop"),
   ("XDG_STATE_HOME", "\"$HOME/.local/state\"")] ++
  (chainFilter envs).map (fun e => (e.1, shell_escape e.2))

/-- The multi-line POSIX script the WSL branch of `create_command`
builds: strict-error mode, expected binary path, conditional bootstrap
install parameterised by the escaped application version, the export
assignments, and the final `exec` line with the argument string appended
verbatim. -/
def wslScript (stateDir version args : String) (extra : List (String × String)) :
    String :=
  String.intercalate "\n"
    (["set -e",
      "BIN=\"$HOME/.opencode/bin/opencode\"",
      "if [ ! -x \"$BIN\" ]; then",
      "  curl -fsSL https://opencode.ai/install | bash -s -- --version "
        ++ shell_escape version ++ " --no-modify-path",
      "fi"] ++
     [String.intercalate " " (envAssigns (mergedEnvs stateDir extra))
        ++ " exec \"$BIN\" " ++ args])

/-- A fully built invocation: program and ordered arguments. -/
structure Invocation where
  program : String
  args : List String

/-- The WSL branch of `create_command`: the bridge shell run as
`wsl -e bash -lc <script>`. -/
def create_command_wsl (stateDir version argsStr : String)
    (extra : List (String × String)) : Invocation :=
  { program := "wsl"
    args := ["-e", "bash", "-lc", wslScript stateDir version argsStr extra] }

theorem envAssigns_eq (envs : List (String × String)) :
    envAssigns envs = (envAssignPairs envs).map (fun e => e.1 ++ "=" ++ e.2) := by
  unfold envAssigns envAssignPairs
  simp only [List.map_append, List.map_cons, List.map_nil, List.map_map]
  congr 1

theorem chainFilter_append (a b : List (String × String)) :
    chainFilter (a ++ b) = chainFilter a ++ chainFilter b := by
  unfold chainFilter
  simp [List.filter_append]

theorem chainFilter_defaults (stateDir : String) :
    chainFilter (defaultEnvs stateDir) = [] := by
  simp +decide [chainFilter, defaultEnvs]

theorem chainFilter_sublist (l : List (String × String)) :
    (chainFilter l).Sublist l := by
  unfold chainFilter
  exact (List.filter_sublist _).trans ((List.filter_sublist _).trans
    ((List.filter_sublist _).trans (List.filter_sublist _)))

theorem mem_chainFilter {e : String × String} {l : List (String × String)}
    (hm : e ∈ chainFilter l) :
    e ∈ l ∧ e.1 ≠ "OPENCODE_EXPERIMENTAL_ICON_DISCOVERY"
      ∧ e.1 ≠ "OPENCODE_EXPERIMENTAL_FILEWATCHER"
      ∧ e.1 ≠ "OPENCODE_CLIENT" ∧ e.1 ≠ "XDG_STATE_HOME" := by
  unfold chainFilter at hm
  simp only [List.mem_filter, bne_iff_ne, ne_eq] at hm
  tauto

/-- C5: in bridge mode, for any state directory and any caller-supplied
extra entries with pairwise distinct keys — including entries whose key
collides with a reserved default key — the generated textual export list
is the rendering of `envAssignPairs`, and no key appears twice in it. -/
theorem bridge_export_list_no_duplicate_keys (stateDir : String)
    (extra : List (String × String)) (hnd : (extra.map Prod.fst).Nodup) :
    envAssigns (mergedEnvs stateDir extra)
        = (envAssignPairs (mergedEnvs stateDir extra)).map (fun e => e.1 ++ "=" ++ e.2) ∧
    ((envAssignPairs (mergedEnvs stateDir extra)).map Prod.fst).Nodup := by
  refine ⟨envAssigns_eq _, ?_⟩
  unfold envAssignPairs
  rw [show mergedEnvs stateDir extra = defaultEnvs stateDir ++ extra from rfl,
    chainFilter_append, chainFilter_defaults, List.nil_append, List.map_append,
    List.map_map, List.nodup_append]
  refine ⟨by decide, ?_, ?_⟩
  · have hsub := (chainFilter_sublist extra).map Prod.fst
    have hkeys : ((chainFilter extra).map Prod.fst).Nodup := hnd.sublist hsub
    simpa [Function.comp] using hkeys
  · intro a ha hb
    simp only [List.mem_map, Function.comp] at hb
    obtain ⟨e, he, rfl⟩ := hb
    have hfacts := mem_chainFilter he
    simp only [List.map_cons, List.map_nil, List.mem_cons, List.mem_singleton] at ha
    rcases ha with h | h | h | h | h
    · exact hfacts.2.1 h
    · exact hfacts.2.2.1 h
    · exact hfacts.2.2.2.1 h
    · exact hfacts.2.2.2.2 h
    · simp at h

/-- C5 witness: a concrete extra list whose first key collides with a
reserved default key. -/
theorem bridge_export_list_no_duplicate_keys_witness :
    ((envAssignPairs (mergedEnvs "/data"
        [("OPENCODE_CLIENT", "x"), ("FOO", "y")])).map Prod.fst).Nodup :=
  (bridge_export_list_no_duplicate_keys "/data"
    [("OPENCODE_CLIENT", "x"), ("FOO", "y")] (by decide)).2

theorem filter_key_map (k : String) (l : List (String × String)) :
    (l.map (fun e => (e.1, shell_escape e.2))).filter (fun e => e.1 != k)
      = (l.filter (fun e => e.1 != k)).map (fun e => (e.1, shell_escape e.2)) := by
  induction l with
  | nil => rfl
  | cons e l ih =>
    cases hbe : (e.1 != k) <;>
      simp [List.filter_cons, hbe, ih]

theorem chainFilter_map_comm (l : List (String × String)) :
    chainFilter (l.map (fun e => (e.1, shell_escape e.2)))
      = (chainFilter l).map (fun e => (e.1, shell_escape e.2)) := by
  unfold chainFilter
  rw [filter_key_map, filter_key_map, filter_key_map, filter_key_map]

theorem envAssigns_factor (stateDir : String) (extra : List (String × String)) :
    envAssigns (mergedEnvs stateDir extra)
      = ["OPENCODE_EXPERIMENTAL_ICON_DISCOVERY=true",
         "OPENCODE_EXPERIMENTAL_FILEWATCHER=true",
         "OPENCODE_CLIENT=desktop",
         "XDG_STATE_HOME=\"$HOME/.local/state\""] ++
        (chainFilter (extra.map (fun e => (e.1, shell_escape e.2)))).map
          (fun x => x.1 ++ "=" ++ x.2) := by
  unfold envAssigns mergedEnvs
  rw [chainFilter_append, chainFilter_defaults, List.nil_append,
    chainFilter_map_comm, List.map_map]
  rfl

theorem stringEq_of_data {a b : String} (h : a.data = b.data) : a = b := by
  cases a
  cases b
  cases h
  rfl

/-- A character that a POSIX shell reads as an ordinary word character:
not a blank, quote, backslash, operator or expansion character, so it
survives word splitting and quote removal unchanged. -/
def plainChar (c : Char) : Bool :=
  !(c == ' ' || c == '\t' || c == '\n' || c == '\'' || c == '"' || c == '\\'
    || c == '|' || c == '&' || c == ';' || c == '<' || c == '>'
    || c == '(' || c == ')' || c == '$' || c == Char.ofNat 96)

theorem wordsAux_plain_step (c : Char) (hc : plainChar c = true)
    (cur : Option (List Char)) (rest : List Char) :
    wordsAux .norm cur (c :: rest) = wordsAux .norm (some (cur.getD [] ++ [c])) rest := by
  simp only [plainChar, Bool.not_eq_true', Bool.or_eq_false_iff, beq_eq_false_iff_ne,
    ne_eq] at hc
  rw [wordsAux.eq_def]
  split
  · simp_all
  · simp_all
  · simp_all
  · rename_i c2 rest2 heq
    injection heq with h1 h2
    subst h1
    subst h2
    rw [if_neg (by simp [hc.1.1.1.1.1.1.1.1.1.1.1.1.1.1,
        hc.1.1.1.1.1.1.1.1.1.1.1.1.1.2, hc.1.1.1.1.1.1.1.1.1.1.1.1.2])]
    rw [if_neg (by simp [hc.1.1.1.1.1.1.1.1.1.1.1.2])]
    rw [if_neg (by simp [hc.1.1.1.1.1.1.1.1.1.1.2])]
    rw [if_neg (by simp [hc.1.1.1.1.1.1.1.1.2, hc.1.1.1.1.1.1.1.2, hc.1.1.1.1.1.1.2,
        hc.1.1.1.1.1.2, hc.1.1.1.1.2, hc.1.1.1.2, hc.1.1.2, hc.1.2, hc.2])]
  · simp_all
  · simp_all
  · simp_all
  · simp_all
  · simp_all
  · simp_all

theorem wordsAux_plain_run (k : List Char) (hk : ∀ c ∈ k, plainChar c = true) :
    ∀ w t : List Char, wordsAux .norm (some w) (k ++ t) = wordsAux .norm (some (w ++ k)) t := by
  induction k with
  | nil => intro w t; simp
  | cons c k ih =>
    intro w t
    rw [List.cons_append, wordsAux_plain_step c (hk c (by simp)) (some w)]
    have := ih (fun d hd => hk d (by simp [hd])) (w ++ [c]) t
    simpa using this

theorem wordsAux_escape_append (vl : List Char) :
    ∀ w t : List Char,
      wordsAux .norm (some w) (shell_escapeCore vl ++ t) = wordsAux .norm (some (w ++ vl)) t := by
  intro w t
  rw [shell_escapeCore_eq]
  cases vl with
  | nil => simp [wordsAux]
  | cons c l =>
    rw [if_neg (by simp)]
    have hshape : ('\'' :: (((c :: l).map escQuote).flatten ++ ['\''])) ++ t
        = '\'' :: (((c :: l).map escQuote).flatten ++ '\'' :: t) := by
      simp
    rw [hshape]
    have hstep : wordsAux .norm (some w)
        ('\'' :: (((c :: l).map escQuote).flatten ++ '\'' :: t))
        = wordsAux .single (some w) (((c :: l).map escQuote).flatten ++ '\'' :: t) := rfl
    rw [hstep, wordsAux_escape]

theorem wordsAux_escape_append_start (vl t : List Char) :
    wordsAux .norm none (shell_escapeCore vl ++ t) = wordsAux .norm (some vl) t := by
  rw [shell_escapeCore_eq]
  cases vl with
  | nil => simp [wordsAux]
  | cons c l =>
    rw [if_neg (by simp)]
    have hshape : ('\'' :: (((c :: l).map escQuote).flatten ++ ['\''])) ++ t
        = '\'' :: (((c :: l).map escQuote).flatten ++ '\'' :: t) := by
      simp
    rw [hshape]
    have hstep : wordsAux .norm none
        ('\'' :: (((c :: l).map escQuote).flatten ++ '\'' :: t))
        = wordsAux .single (some []) (((c :: l).map escQuote).flatten ++ '\'' :: t) := rfl
    rw [hstep, wordsAux_escape]
    simp

/-- The command the bridge script pipes the bootstrap installer into,
parameterised by the already-escaped version value: the post-pipe suffix
of the script's curl line. -/
def bootstrapWithEscaped (escVersion : String) : String :=
  "bash -s -- --version " ++ escVersion ++ " --no-modify-path"

/-- Spec-side template of the bridge-mode script: it receives the
already-escaped version value and the already-escaped export
assignments, never sees a raw interpolated value, and never applies the
escaper itself — it embeds its escaped inputs by plain concatenation in
the documented positions. -/
def wslScriptFromEscaped (escVersion : String) (escAssigns : List (String × String))
    (args : String) : String :=
  String.intercalate "\n"
    (["set -e",
      "BIN=\"$HOME/.opencode/bin/opencode\"",
      "if [ ! -x \"$BIN\" ]; then",
      "  curl -fsSL https://opencode.ai/install | " ++ bootstrapWithEscaped escVersion,
      "fi"] ++
     [String.intercalate " "
        (["OPENCODE_EXPERIMENTAL_ICON_DISCOVERY=true",
          "OPENCODE_EXPERIMENTAL_FILEWATCHER=true",
          "OPENCODE_CLIENT=desktop",
          "XDG_STATE_HOME=\"$HOME/.local/state\""] ++
         escAssigns.map (fun x => x.1 ++ "=" ++ x.2))
        ++ " exec \"$BIN\" " ++ args])

theorem parse_bootstrap (X : List Char) :
    wordsAux .norm none ("bash -s -- --version ".data ++ X)
      = (wordsAux .norm none X).map
          (fun ws => "bash".data :: "-s".data :: "--".data :: "--version".data :: ws) := by
  have h : wordsAux .norm none ("bash -s -- --version ".data ++ X)
      = ((((wordsAux .norm none X).map (fun ws => "--version".data :: ws)).map
          (fun ws => "--".data :: ws)).map (fun ws => "-s".data :: ws)).map
          (fun ws => "bash".data :: ws) := rfl
  rw [h]
  cases wordsAux .norm none X <;> rfl

theorem bootstrapWords (vl : List Char) :
    wordsAux .norm none
        ("bash -s -- --version ".data ++ (shell_escapeCore vl ++ " --no-modify-path".data))
      = some ["bash".data, "-s".data, "--".data, "--version".data, vl,
          "--no-modify-path".data] := by
  rw [parse_bootstrap, wordsAux_escape_append_start]
  have hstep : wordsAux .norm (some vl) (" --no-modify-path".data)
      = some [vl, "--no-modify-path".data] := rfl
  rw [hstep]
  rfl

theorem assignWords (kl vl : List Char) (hk : ∀ c ∈ kl, plainChar c = true) :
    wordsAux .norm none ((kl ++ ['=']) ++ shell_escapeCore vl)
      = some [(kl ++ ['=']) ++ vl] := by
  cases kl with
  | nil =>
    have hstart : wordsAux .norm none (('=' :: []) ++ shell_escapeCore vl)
        = wordsAux .norm (some ['=']) (shell_escapeCore vl) := rfl
    rw [List.nil_append, hstart, show shell_escapeCore vl = shell_escapeCore vl ++ [] by simp,
      wordsAux_escape_append]
    simp [wordsAux]
  | cons c kl =>
    rw [List.cons_append, List.cons_append,
      wordsAux_plain_step c (hk c (by simp)) none,
      show (none : Option (List Char)).getD [] ++ [c] = [c] from rfl,
      wordsAux_plain_run (kl ++ ['='])
        (by
          intro d hd
          rcases List.mem_append.mp hd with h | h
          · exact hk d (by simp [h])
          · simp only [List.mem_singleton] at h
            subst h
            decide),
      show shell_escapeCore vl = shell_escapeCore vl ++ [] by simp,
      wordsAux_escape_append]
    simp [wordsAux]

/-- C7: every value the bridge-mode Command Builder interpolates into
the generated script passes through the Shell Escaper, and none is
embedded unescaped: (1) the script equals a template receiving only the
escaped version and the escaped extra environment values, so raw values
never enter the text except through `shell_escape`; (2) POSIX word
splitting of the bootstrap command recovers the raw version as exactly
one word for every version string; (3) POSIX word splitting of any
`KEY=escaped-value` export assignment with an ordinary key recovers
exactly `KEY=value`, for every value.  (The argument string is appended
verbatim by design and carries no interpolated value.) -/
theorem bridge_script_escapes_interpolated_values
    (stateDir version args : String) (extra : List (String × String)) :
    wslScript stateDir version args extra
        = wslScriptFromEscaped (shell_escape version)
            ((chainFilter (mergedEnvs stateDir extra)).map
              (fun e => (e.1, shell_escape e.2))) args ∧
    posixShellWords (bootstrapWithEscaped (shell_escape version))
        = some ["bash", "-s", "--", "--version", version, "--no-modify-path"] ∧
    (∀ k v : String, (∀ c ∈ k.data, plainChar c = true) →
      posixShellWords (k ++ "=" ++ shell_escape v) = some [k ++ "=" ++ v]) := by
  refine ⟨?_, ?_, ?_⟩
  · unfold wslScript wslScriptFromEscaped bootstrapWithEscaped
    refine congrArg (String.intercalate "\n") ?_
    rw [envAssigns_factor,
      show mergedEnvs stateDir extra = defaultEnvs stateDir ++ extra from rfl,
      chainFilter_append, chainFilter_defaults, List.nil_append,
      chainFilter_map_comm, List.map_map]
    have hassoc : ∀ a b c : String, (a ++ b) ++ c = a ++ (b ++ c) := by
      intro a b c
      apply stringEq_of_data
      simp [stringData_append, List.append_assoc]
    have hsplit : ("  curl -fsSL https://opencode.ai/install | " : String)
          ++ "bash -s -- --version "
        = "  curl -fsSL https://opencode.ai/install | bash -s -- --version " := by
      decide
    have hcurl : "  curl -fsSL https://opencode.ai/install | bash -s -- --version "
          ++ shell_escape version ++ " --no-modify-path"
        = "  curl -fsSL https://opencode.ai/install | "
          ++ ("bash -s -- --version " ++ shell_escape version ++ " --no-modify-path") := by
      rw [← hsplit, hassoc, hassoc, hassoc]
    rw [hcurl]
  · obtain ⟨vl⟩ := version
    unfold posixShellWords bootstrapWithEscaped
    have hdata : ("bash -s -- --version " ++ shell_escape ⟨vl⟩ ++ " --no-modify-path").data
        = "bash -s -- --version ".data ++ (shell_escapeCore vl ++ " --no-modify-path".data) := by
      simp [stringData_append, shell_escape]
    rw [hdata, bootstrapWords]
    rfl
  · intro k v hk
    obtain ⟨kl⟩ := k
    obtain ⟨vl⟩ := v
    unfold posixShellWords
    have hdata : ((⟨kl⟩ : String) ++ "=" ++ shell_escape ⟨vl⟩).data
        = (kl ++ ['=']) ++ shell_escapeCore vl := by
      simp [stringData_append, shell_escape]
    rw [hdata, assignWords kl vl hk]
    refine congrArg some ?_
    refine congrArg (fun w => [w]) ?_
    apply stringEq_of_data
    simp [stringData_append]
